import Mathlib

/-!
Verification of the swaggerpy dynamic client (`swaggerpy/client.py`):
a shallow embedding of the parameter-binding and dispatch logic of
`Operation.__call__`, the URI assembly of `Resource._build_operation`,
and the name-enrichment pass `ClientProcessor.process_resource_listing_api`,
with theorems settling the specification claims about them.

Python values supplied as keyword arguments are modelled by `Value`;
Python dicts by association lists with unique keys; truthiness, `str()`,
`",".join`, `str.replace`, `os.path.basename`, `os.path.splitext` and
`re.sub` are each given an explicit executable model.  Invoking the
transport is modelled by producing a `Dispatch` value: binding failures
return an `Except.error`, so no `Dispatch` is ever constructed for them,
which is the embedding of "the transport is never invoked".
-/

/-- A Python value as it can appear among an operation call's keyword
arguments: string, integer, boolean, `None`, or a list of values. -/
inductive Value where
  | str : String → Value
  | int : Int → Value
  | bool : Bool → Value
  | none : Value
  | list : List Value → Value

mutual

/-- Python `repr` of a value (only used through `pyStr` on lists, which the
source reaches only for non-primitive list elements; primitive cases are
exact). -/
def pyRepr : Value → String
  | .str s => "'" ++ s ++ "'"
  | .int n => toString n
  | .bool b => if b then "True" else "False"
  | .none => "None"
  | .list l => "[" ++ String.intercalate ", " (pyReprList l) ++ "]"

/-- `pyRepr` mapped over a list of values. -/
def pyReprList : List Value → List String
  | [] => []
  | v :: vs => pyRepr v :: pyReprList vs

end

/-- Python `str(x)` / `unicode(x)` on a value, as used by the source for
path substitution and for list elements in the comma-join. -/
def pyStr : Value → String
  | .str s => s
  | .int n => toString n
  | .bool b => if b then "True" else "False"
  | .none => "None"
  | .list l => "[" ++ String.intercalate ", " (pyReprList l) ++ "]"

/-- Python truthiness of a value (`if value:` in the source). -/
def truthy : Value → Bool
  | .str s => s ≠ ""
  | .int n => n ≠ 0
  | .bool b => b
  | .none => false
  | .list l => !l.isEmpty

/-- Truthiness of `kwargs.get(name)`: `None` (absent key) is falsy. -/
def truthyO : Option Value → Bool
  | some v => truthy v
  | Option.none => false

/-- `d.get(k)` on a Python dict modelled as an association list. -/
def lookupV : List (String × Value) → String → Option Value
  | [], _ => Option.none
  | (k, v) :: rest, key => if k = key then some v else lookupV rest key

/-- `del d[k]` on a Python dict modelled as an association list (the
source's dicts have unique keys, so removing every binding of `k` agrees
with removing the one binding). -/
def removeKey : List (String × Value) → String → List (String × Value)
  | [], _ => []
  | (k0, v0) :: rest, key =>
      if k0 = key then removeKey rest key else (k0, v0) :: removeKey rest key

/-- `d[k] = v` on a Python dict modelled as an association list. -/
def setKey : List (String × Value) → String → Value → List (String × Value)
  | [], k, v => [(k, v)]
  | (k0, v0) :: rest, k, v =>
      if k0 = k then (k0, v) :: rest else (k0, v0) :: setKey rest k v

/-- `u",".join(str(x) for x in value)` from the source. -/
def joinComma (l : List Value) : String :=
  String.intercalate "," (l.map pyStr)

/-- One declared parameter of an operation (`name`, `paramType`,
`required`, the fields the call path reads). -/
structure Param where
  name : String
  paramType : String
  required : Bool
deriving DecidableEq, Repr

/-- The operation schema fragment fields read by `Operation.__call__`. -/
structure Op where
  nickname : String
  method : String
  parameters : List Param
  is_websocket : Bool
deriving DecidableEq, Repr

/-- The mutable locals of one `Operation.__call__` run: `uri`, `params`,
`data`, `headers`, and the shrinking `kwargs` dict. -/
structure BindState where
  uri : String
  params : List (String × Value)
  data : Option Value
  headers : Option (List (String × String))
  kwargs : List (String × Value)

/-- The error raised by a failed binding, modelling the Python exceptions:
`missingRequired` is the `TypeError` "Missing required parameter ...",
`unexpectedParams` is the `TypeError` "... does not have parameters ...",
and `attrErrorParamType` is the `AttributeError` that the interpreter
raises when the unsupported-paramType branch evaluates `param.paramType`
on a dict while formatting its intended `AssertionError` message. -/
inductive CallError where
  | missingRequired (name nickname : String)
  | unexpectedParams (names : List String) (nickname : String)
  | attrErrorParamType
deriving DecidableEq

/-- A transport invocation: `http_client.request(method, uri, params,
data, headers)` or `http_client.ws_connect(uri, params=params)`.
Constructing a `Dispatch` is the model of invoking the transport. -/
inductive Dispatch where
  | request (method uri : String) (params : List (String × Value))
      (data : Option Value) (headers : Option (List (String × String)))
  | wsConnect (uri : String) (params : List (String × Value))

/-- Fuel-driven worker for Python `str.replace`: replace every
non-overlapping occurrence of `pat`, scanning left to right.  With
`fuel ≥ length of the input` and nonempty `pat` (the only way the source
calls `replace`) the fuel never runs out, since each match consumes at
least one character. -/
def replFuel (pat rep : List Char) : Nat → List Char → List Char
  | _, [] => []
  | 0, l => l
  | fuel + 1, c :: cs =>
      if pat.isPrefixOf (c :: cs) then
        rep ++ replFuel pat rep fuel (List.drop (pat.length - 1) cs)
      else
        c :: replFuel pat rep fuel cs

/-- Fuel-driven count of the (greedy, non-overlapping, left-to-right)
occurrences of `pat`, matching the scan performed by `replFuel`. -/
def countFuel (pat : List Char) : Nat → List Char → Nat
  | _, [] => 0
  | 0, _ => 0
  | fuel + 1, c :: cs =>
      if pat.isPrefixOf (c :: cs) then
        1 + countFuel pat fuel (List.drop (pat.length - 1) cs)
      else
        countFuel pat fuel cs

/-- Python `str.replace` on character lists. -/
def replaceL (pat rep l : List Char) : List Char :=
  replFuel pat rep l.length l

/-- Occurrence count of `pat` as `replaceL` scans for it. -/
def countOcc (pat l : List Char) : Nat :=
  countFuel pat l.length l

/-- `uri.replace(pat, rep)` from the source, on strings. -/
def pyReplace (s pat rep : String) : String :=
  ⟨replaceL pat.data rep.data s.data⟩

/-- Occurrence count at string level. -/
def countOccS (s pat : String) : Nat :=
  countOcc pat.data s.data

/-- `re.sub(u'^http', u"ws", uri)` from the source: the pattern is
anchored, so it replaces a leading `http` and changes nothing else. -/
def wsFix (uri : String) : String :=
  if ("http".data).isPrefixOf uri.data then ⟨"ws".data ++ uri.data.drop 4⟩ else uri

/-- The headers dict the source installs when a body parameter binds. -/
def ctJson : List (String × String) := [("content-type", "application/json")]

/-- The value the loop body works with after the list-collapsing step:
`kwargs.get(pname)`, with a list collapsed to a comma-joined string when
`paramType` is `path` or `query`. -/
def effValue (kwargs : List (String × Value)) (p : Param) : Option Value :=
  match lookupV kwargs p.name with
  | some (Value.list l) =>
      if p.paramType = "path" ∨ p.paramType = "query" then
        some (Value.str (joinComma l))
      else
        some (Value.list l)
  | v => v

/-- One iteration of the binding loop of `Operation.__call__` for a single
declared parameter: look the value up, collapse lists for path/query,
then on a truthy value substitute into the URI / extend the query dict /
set the body (consuming the argument), and on a falsy or absent value
fail iff the parameter is required. -/
def bindStep (nick : String) (st : BindState) (p : Param) : Except CallError BindState :=
  match effValue st.kwargs p with
  | some v =>
      if truthy v then
        if p.paramType = "path" then
          .ok { st with uri := pyReplace st.uri ("\x7b" ++ p.name ++ "\x7d") (pyStr v),
                        kwargs := removeKey st.kwargs p.name }
        else if p.paramType = "query" then
          .ok { st with params := setKey st.params p.name v,
                        kwargs := removeKey st.kwargs p.name }
        else if p.paramType = "body" then
          .ok { st with data := some v, headers := some ctJson,
                        kwargs := removeKey st.kwargs p.name }
        else
          .error .attrErrorParamType
      else
        if p.required then .error (.missingRequired p.name nick) else .ok st
  | Option.none =>
      if p.required then .error (.missingRequired p.name nick) else .ok st

/-- The binding loop over the declared parameter list. -/
def bindLoop (nick : String) : List Param → BindState → Except CallError BindState
  | [], st => .ok st
  | p :: ps, st =>
      match bindStep nick st p with
      | .ok st2 => bindLoop nick ps st2
      | .error e => .error e

/-- The locals of `Operation.__call__` at entry. -/
def initState (uri : String) (kwargs : List (String × Value)) : BindState :=
  { uri := uri, params := [], data := Option.none,
    headers := Option.none, kwargs := kwargs }

/-- `Operation.__call__` up to the transport invocation: bind every
declared parameter, reject leftover keyword arguments, then dispatch
either through `ws_connect` (with the `http` → `ws` scheme rewrite) or
through `request`. -/
def runCall (op : Op) (uri : String) (kwargs : List (String × Value)) :
    Except CallError Dispatch :=
  match bindLoop op.nickname op.parameters (initState uri kwargs) with
  | .error e => .error e
  | .ok st =>
      if st.kwargs.isEmpty then
        if op.is_websocket then
          .ok (.wsConnect (wsFix st.uri) st.params)
        else
          .ok (.request op.method st.uri st.params st.data st.headers)
      else
        .error (.unexpectedParams (st.kwargs.map Prod.fst) op.nickname)

/-- "This iteration of the loop does not raise": either the (collapsed)
value is truthy and the `paramType` is one of the three supported kinds,
or the value is falsy/absent and the parameter is not required. -/
def stepPasses (kwargs : List (String × Value)) (q : Param) : Bool :=
  if truthyO (effValue kwargs q) then
    q.paramType = "path" ∨ q.paramType = "query" ∨ q.paramType = "body"
  else
    !q.required

/-- `os.path.basename(p)`: the characters after the last `/`
(`p[p.rfind('/')+1:]`), computed by scanning the reversed list. -/
def basenameL (l : List Char) : List Char :=
  (l.reverse.takeWhile (fun c => c ≠ '/')).reverse

/-- The root component of `os.path.splitext(p)`: strip the suffix that
starts at the last `.` provided that dot lies after the last `/` and some
non-dot character stands between them (CPython `genericpath._splitext`);
otherwise return the input unchanged. -/
def splitextRootL (l : List Char) : List Char :=
  let r := l.reverse
  let afterDot := r.takeWhile (fun c => c ≠ '.')
  if afterDot.length = r.length then l
  else
    let pre := List.drop (afterDot.length + 1) r
    if afterDot.any (fun c => c = '/') then l
    else if (pre.takeWhile (fun c => c ≠ '/')).any (fun c => c ≠ '.') then
      pre.reverse
    else l

/-- `os.path.splitext(os.path.basename(path))[0]` from
`ClientProcessor.process_resource_listing_api`. -/
def resourceName (path : String) : String :=
  ⟨splitextRootL (basenameL path.data)⟩

/-- One entry of the resource listing's `apis` array: its declared `path`
and the `name` field the enrichment pass writes. -/
structure ListingApi where
  path : String
  name : Option String
deriving DecidableEq, Repr

/-- `ClientProcessor.process_resource_listing_api`: derive the resource
name from the entry's path and write it onto the entry. -/
def processResourceListingApi (e : ListingApi) : ListingApi :=
  { e with name := some (resourceName e.path) }

/-- One API entry of an API declaration: a path fragment and the
operations sharing it. -/
structure ApiEntry where
  path : String
  operations : List Op
deriving DecidableEq, Repr

/-- The fields of an API declaration read by `Resource._build_operation`
and the operation-building comprehension in `Resource.__init__`. -/
structure ApiDecl where
  basePath : String
  apis : List ApiEntry
deriving DecidableEq, Repr

/-- A built `Operation` object: its resolved URI template and its schema
fragment (the transport and model set carry no information the claims
touch). -/
structure BuiltOp where
  uri : String
  oper : Op
deriving DecidableEq, Repr

/-- `Resource._build_operation`: pick the declaration's own `basePath`
unless it is `"/"` (in which case use the client-level base path stored at
`Resource.__init__`), concatenate the API entry's path fragment, and build
the `Operation`. -/
def buildOperation (clientBasePath : String) (decl : ApiDecl) (api : ApiEntry)
    (oper : Op) : BuiltOp :=
  { uri := (if decl.basePath = "/" then clientBasePath else decl.basePath) ++ api.path,
    oper := oper }

/-- The operation-building comprehension of `Resource.__init__`: one built
operation per API entry and operation declaration, keyed by nickname. -/
def buildOperations (clientBasePath : String) (decl : ApiDecl) :
    List (String × BuiltOp) :=
  decl.apis.flatMap (fun api =>
    api.operations.map (fun oper =>
      (oper.nickname, buildOperation clientBasePath decl api oper)))

/-- The *spec's words*: the sentinel basePath meaning "use the listing's
resolved base" — the root path. -/
def rootSentinel : String := "/"

/-- The *spec's words* for the effective base path: the declaration's own
`basePath` if it is not the root sentinel, the client-level base path
otherwise. -/
def specEffectiveBasePath (clientBasePath declBasePath : String) : String :=
  if declBasePath = rootSentinel then clientBasePath else declBasePath

theorem lookupV_removeKey (l : List (String × Value)) (k0 k : String) :
    lookupV (removeKey l k0) k = if k = k0 then Option.none else lookupV l k := by
  induction l with
  | nil =>
      simp only [removeKey, lookupV]
      split <;> rfl
  | cons kv rest ih =>
      obtain ⟨k1, v1⟩ := kv
      by_cases h1 : k1 = k0
      · subst h1
        rw [removeKey, if_pos rfl, ih]
        by_cases h2 : k = k1
        · simp [h2]
        · have h3 : ¬ k1 = k := fun hh => h2 hh.symm
          simp [h2, lookupV, h3]
      · rw [removeKey, if_neg h1]
        simp only [lookupV]
        by_cases h2 : k1 = k
        · rw [if_pos h2]
          have h3 : ¬ k = k0 := by
            rw [← h2]
            exact h1
          rw [if_neg h3, if_pos h2]
        · rw [if_neg h2, ih]
          by_cases h4 : k = k0 <;> simp [h4, h2]

theorem lookupV_mem {l : List (String × Value)} {k : String} {v : Value}
    (h : lookupV l k = some v) : k ∈ l.map Prod.fst := by
  induction l with
  | nil => simp [lookupV] at h
  | cons kv rest ih =>
      obtain ⟨k1, v1⟩ := kv
      by_cases h1 : k1 = k
      · simp [h1]
      · rw [lookupV, if_neg h1] at h
        simp [ih h]

theorem lookupV_setKey_ne (l : List (String × Value)) (k0 k : String) (v : Value)
    (h : ¬ k0 = k) : lookupV (setKey l k0 v) k = lookupV l k := by
  induction l with
  | nil => simp [setKey, lookupV, h]
  | cons kv rest ih =>
      obtain ⟨k1, v1⟩ := kv
      by_cases h1 : k1 = k0
      · subst h1
        rw [setKey, if_pos rfl]
        simp [lookupV, h]
      · rw [setKey, if_neg h1]
        simp only [lookupV]
        rw [ih]

theorem effValue_congr {kw1 kw2 : List (String × Value)} (q : Param)
    (h : lookupV kw1 q.name = lookupV kw2 q.name) :
    effValue kw1 q = effValue kw2 q := by
  unfold effValue
  rw [h]

theorem effValue_of_lookup_none {kw : List (String × Value)} {q : Param}
    (h : lookupV kw q.name = Option.none) : effValue kw q = Option.none := by
  unfold effValue
  rw [h]

theorem effValue_body {kw : List (String × Value)} {q : Param} {v : Value}
    (hb : q.paramType = "body") (h : lookupV kw q.name = some v) :
    effValue kw q = some v := by
  unfold effValue
  rw [h, hb]
  cases v <;> simp

theorem bindStep_falsy_required {nick : String} {st : BindState} {q : Param}
    (hf : truthyO (effValue st.kwargs q) = false) (hr : q.required = true) :
    bindStep nick st q = .error (.missingRequired q.name nick) := by
  unfold bindStep
  cases h : effValue st.kwargs q with
  | none => simp [hr]
  | some v =>
      rw [h] at hf
      simp only [truthyO] at hf
      simp [hf, hr]

theorem bindStep_pass {nick : String} {st : BindState} {q : Param}
    (hp : stepPasses st.kwargs q = true) :
    ∃ st2, bindStep nick st q = .ok st2 ∧
      st2.kwargs = (if truthyO (effValue st.kwargs q) then
        removeKey st.kwargs q.name else st.kwargs) := by
  unfold stepPasses at hp
  unfold bindStep
  cases h : effValue st.kwargs q with
  | none =>
      rw [h] at hp
      have hto : truthyO (Option.none : Option Value) = false := rfl
      rw [hto] at hp
      simp only [Bool.false_eq_true, if_false, Bool.not_eq_true'] at hp
      refine ⟨st, by simp [hp], by rw [hto]; simp⟩
  | some v =>
      rw [h] at hp
      have hto : truthyO (some v) = truthy v := rfl
      rw [hto] at hp
      cases ht : truthy v with
      | true =>
          rw [ht, if_pos rfl] at hp
          have hp' : q.paramType = "path" ∨ q.paramType = "query" ∨ q.paramType = "body" := by
            simpa using hp
          rw [hto, ht]
          rcases hp' with hpt | hpt | hpt
          · refine ⟨{ st with
                uri := pyReplace st.uri ("\x7b" ++ q.name ++ "\x7d") (pyStr v)
                kwargs := removeKey st.kwargs q.name }, ?_, rfl⟩
            simp [ht, hpt]
          · have h1 : q.paramType ≠ "path" := by simp [hpt]
            refine ⟨{ st with
                params := setKey st.params q.name v
                kwargs := removeKey st.kwargs q.name }, ?_, rfl⟩
            simp [ht, hpt, h1]
          · have h1 : q.paramType ≠ "path" := by simp [hpt]
            have h2 : q.paramType ≠ "query" := by simp [hpt]
            refine ⟨{ st with
                data := some v
                headers := some ctJson
                kwargs := removeKey st.kwargs q.name }, ?_, rfl⟩
            simp [ht, hpt, h1, h2]
      | false =>
          rw [ht] at hp
          simp only [Bool.false_eq_true, if_false, Bool.not_eq_true'] at hp
          rw [hto, ht]
          refine ⟨st, by simp [ht, hp], by simp⟩

theorem bindStep_eq_none {nick : String} {st : BindState} {q : Param}
    (he : effValue st.kwargs q = Option.none) :
    bindStep nick st q =
      if q.required then .error (.missingRequired q.name nick) else .ok st := by
  unfold bindStep
  rw [he]

theorem bindStep_eq_some {nick : String} {st : BindState} {q : Param} {v : Value}
    (he : effValue st.kwargs q = some v) :
    bindStep nick st q =
      if truthy v then
        if q.paramType = "path" then
          .ok { st with uri := pyReplace st.uri ("\x7b" ++ q.name ++ "\x7d") (pyStr v)
                        kwargs := removeKey st.kwargs q.name }
        else if q.paramType = "query" then
          .ok { st with params := setKey st.params q.name v
                        kwargs := removeKey st.kwargs q.name }
        else if q.paramType = "body" then
          .ok { st with data := some v
                        headers := some ctJson
                        kwargs := removeKey st.kwargs q.name }
        else
          .error .attrErrorParamType
      else
        if q.required then .error (.missingRequired q.name nick) else .ok st := by
  unfold bindStep
  rw [he]

theorem bindStep_ok_shape {nick : String} {st : BindState} {q : Param} {st2 : BindState}
    (h : bindStep nick st q = .ok st2) :
    (st2.kwargs = st.kwargs ∨ st2.kwargs = removeKey st.kwargs q.name) ∧
    (st2.params = st.params ∨ ∃ v, st2.params = setKey st.params q.name v) ∧
    (¬ q.paramType = "body" → st2.data = st.data ∧ st2.headers = st.headers) := by
  cases he : effValue st.kwargs q with
  | none =>
      rw [bindStep_eq_none he] at h
      split_ifs at h
      injection h with h2
      subst h2
      simp
  | some v =>
      rw [bindStep_eq_some he] at h
      split_ifs at h
      all_goals injection h with h2
      all_goals subst h2
      · simp
      · exact ⟨Or.inr rfl, Or.inr ⟨v, rfl⟩, fun _ => ⟨rfl, rfl⟩⟩
      · exact ⟨Or.inr rfl, Or.inl rfl, fun hb => (hb (by assumption)).elim⟩
      · simp

theorem bindLoop_nil (nick : String) (st : BindState) :
    bindLoop nick [] st = .ok st := rfl

theorem bindLoop_cons (nick : String) (st : BindState) (q : Param) (ps : List Param) :
    bindLoop nick (q :: ps) st =
      match bindStep nick st q with
      | .ok st2 => bindLoop nick ps st2
      | .error e => .error e := rfl

theorem bindLoop_cons_ok {nick : String} {st : BindState} {q : Param} {st2 : BindState}
    (hs : bindStep nick st q = .ok st2) (ps : List Param) :
    bindLoop nick (q :: ps) st = bindLoop nick ps st2 := by
  rw [bindLoop_cons, hs]

theorem bindLoop_cons_err {nick : String} {st : BindState} {q : Param} {e : CallError}
    (hs : bindStep nick st q = .error e) (ps : List Param) :
    bindLoop nick (q :: ps) st = .error e := by
  rw [bindLoop_cons, hs]

theorem bindLoop_append (nick : String) (a b : List Param) :
    ∀ st, bindLoop nick (a ++ b) st =
      match bindLoop nick a st with
      | .ok st2 => bindLoop nick b st2
      | .error e => .error e := by
  induction a with
  | nil => intro st; rfl
  | cons q rest ih =>
      intro st
      cases hs : bindStep nick st q with
      | ok st2 =>
          rw [List.cons_append, bindLoop_cons_ok hs, bindLoop_cons_ok hs, ih]
      | error e =>
          rw [List.cons_append, bindLoop_cons_err hs, bindLoop_cons_err hs]

theorem bindLoop_ok_pres {nick : String} : ∀ (l : List Param) (st st' : BindState),
    bindLoop nick l st = .ok st' →
    (∀ k, (∀ q ∈ l, ¬ q.name = k) →
      lookupV st'.kwargs k = lookupV st.kwargs k ∧
      lookupV st'.params k = lookupV st.params k) ∧
    ((∀ q ∈ l, ¬ q.paramType = "body") →
      st'.data = st.data ∧ st'.headers = st.headers) := by
  intro l
  induction l with
  | nil =>
      intro st st' h
      injection h with h2
      subst h2
      exact ⟨fun k _ => ⟨rfl, rfl⟩, fun _ => ⟨rfl, rfl⟩⟩
  | cons q rest ih =>
      intro st st' h
      cases hs : bindStep nick st q with
      | error e =>
          rw [bindLoop_cons_err hs] at h
          exact absurd h (by simp)
      | ok st2 =>
          rw [bindLoop_cons_ok hs] at h
          obtain ⟨hkp, hdata⟩ := ih st2 st' h
          obtain ⟨hkw, hpar, hdh⟩ := bindStep_ok_shape hs
          constructor
          · intro k hk
            have hq : ¬ q.name = k := hk q (by simp)
            have hrest : ∀ r ∈ rest, ¬ r.name = k := fun r hr => hk r (by simp [hr])
            obtain ⟨hk1, hk2⟩ := hkp k hrest
            constructor
            · rw [hk1]
              rcases hkw with hsame | hrem
              · rw [hsame]
              · rw [hrem, lookupV_removeKey]
                have hne : ¬ k = q.name := fun hh => hq hh.symm
                simp [hne]
            · rw [hk2]
              rcases hpar with hsame | ⟨v, hset⟩
              · rw [hsame]
              · rw [hset, lookupV_setKey_ne _ _ _ _ hq]
          · intro hb
            have hq : ¬ q.paramType = "body" := hb q (by simp)
            have hrest : ∀ r ∈ rest, ¬ r.paramType = "body" := fun r hr => hb r (by simp [hr])
            obtain ⟨hd, hh⟩ := hdh hq
            obtain ⟨hd2, hh2⟩ := hdata hrest
            exact ⟨hd2.trans hd, hh2.trans hh⟩

theorem bindLoop_pass {nick : String} : ∀ (l : List Param) (st : BindState),
    (l.map Param.name).Nodup →
    (∀ q ∈ l, stepPasses st.kwargs q = true) →
    ∃ st', bindLoop nick l st = .ok st' ∧
      ∀ k, (∀ q ∈ l, q.name = k → truthyO (effValue st.kwargs q) = false) →
        lookupV st'.kwargs k = lookupV st.kwargs k := by
  intro l
  induction l with
  | nil =>
      intro st _ _
      exact ⟨st, rfl, fun k _ => rfl⟩
  | cons q rest ih =>
      intro st hnd hpass
      have hq : stepPasses st.kwargs q = true := hpass q (by simp)
      obtain ⟨st2, hs, hkw⟩ := @bindStep_pass nick st q hq
      have hnd' : (q.name :: rest.map Param.name).Nodup := by simpa using hnd
      have hnames : ∀ r ∈ rest, ¬ r.name = q.name := by
        intro r hr hrq
        exact (List.nodup_cons.mp hnd').1 (List.mem_map.mpr ⟨r, hr, hrq⟩)
      have hlk : ∀ k, ¬ k = q.name → lookupV st2.kwargs k = lookupV st.kwargs k := by
        intro k hk
        rw [hkw]
        split_ifs with ht
        · rw [lookupV_removeKey]
          simp [hk]
        · rfl
      have heff : ∀ r ∈ rest, effValue st2.kwargs r = effValue st.kwargs r := by
        intro r hr
        exact effValue_congr r (hlk r.name (hnames r hr))
      have hpass2 : ∀ r ∈ rest, stepPasses st2.kwargs r = true := by
        intro r hr
        have hp := hpass r (by simp [hr])
        unfold stepPasses at hp ⊢
        rw [heff r hr]
        exact hp
      obtain ⟨st', hloop, hpres⟩ := ih st2 (List.nodup_cons.mp hnd').2 hpass2
      refine ⟨st', by rw [bindLoop_cons_ok hs]; exact hloop, ?_⟩
      intro k hk
      have hrestk : ∀ r ∈ rest, r.name = k → truthyO (effValue st2.kwargs r) = false := by
        intro r hr hrk
        rw [heff r hr]
        exact hk r (by simp [hr]) hrk
      rw [hpres k hrestk]
      by_cases hkq : k = q.name
      · have hqf : truthyO (effValue st.kwargs q) = false := hk q (by simp) hkq.symm
        rw [hkw, hqf]
        simp
      · exact hlk k hkq

theorem runCall_of_err {op : Op} {uri : String} {kwargs : List (String × Value)}
    {e : CallError}
    (h : bindLoop op.nickname op.parameters (initState uri kwargs) = .error e) :
    runCall op uri kwargs = .error e := by
  unfold runCall
  rw [h]

theorem runCall_of_ok {op : Op} {uri : String} {kwargs : List (String × Value)}
    {st : BindState}
    (h : bindLoop op.nickname op.parameters (initState uri kwargs) = .ok st) :
    runCall op uri kwargs =
      if st.kwargs.isEmpty then
        if op.is_websocket then
          .ok (.wsConnect (wsFix st.uri) st.params)
        else
          .ok (.request op.method st.uri st.params st.data st.headers)
      else
        .error (.unexpectedParams (st.kwargs.map Prod.fst) op.nickname) := by
  unfold runCall
  rw [h]

theorem replFuel_count_zero (pat rep : List Char) : ∀ (fuel : Nat) (l : List Char),
    l.length ≤ fuel → countFuel pat fuel l = 0 → replFuel pat rep fuel l = l := by
  intro fuel
  induction fuel with
  | zero =>
      intro l hl _
      have : l = [] := List.eq_nil_of_length_eq_zero (Nat.le_zero.mp hl)
      subst this
      rfl
  | succ fuel ih =>
      intro l hl hc
      cases l with
      | nil => rfl
      | cons c cs =>
          by_cases hp : pat.isPrefixOf (c :: cs)
          · rw [countFuel, if_pos hp] at hc
            omega
          · rw [countFuel, if_neg hp] at hc
            rw [replFuel, if_neg hp]
            have hlen : cs.length ≤ fuel := by
              simpa using Nat.le_of_succ_le_succ (by simpa using hl)
            rw [ih cs hlen hc]

theorem replFuel_count_one (pat rep : List Char) (hpat : ¬ pat = []) :
    ∀ (fuel : Nat) (l : List Char), l.length ≤ fuel → countFuel pat fuel l = 1 →
    ∃ pre post, l = pre ++ pat ++ post ∧ replFuel pat rep fuel l = pre ++ rep ++ post := by
  intro fuel
  induction fuel with
  | zero =>
      intro l hl hc
      have : l = [] := List.eq_nil_of_length_eq_zero (Nat.le_zero.mp hl)
      subst this
      simp [countFuel] at hc
  | succ fuel ih =>
      intro l hl hc
      cases l with
      | nil => simp [countFuel] at hc
      | cons c cs =>
          by_cases hp : pat.isPrefixOf (c :: cs)
          · rw [countFuel, if_pos hp] at hc
            have hc0 : countFuel pat fuel (List.drop (pat.length - 1) cs) = 0 := by omega
            obtain ⟨post, hpost⟩ := List.isPrefixOf_iff_prefix.mp hp
            cases pat with
            | nil => exact absurd rfl hpat
            | cons p0 pr =>
                have hinj := hpost
                rw [List.cons_append] at hinj
                injection hinj with hc1 hc2
                have hdrop : List.drop ((p0 :: pr).length - 1) cs = post := by
                  rw [← hc2]
                  simp [List.drop_left]
                have hplen : post.length ≤ fuel := by
                  have h1 : post.length ≤ cs.length := by
                    rw [← hc2]
                    simp
                  have h2 : cs.length ≤ fuel := by
                    simpa using Nat.le_of_succ_le_succ (by simpa using hl)
                  omega
                refine ⟨[], post, by simpa using hpost.symm, ?_⟩
                rw [replFuel, if_pos hp, hdrop]
                rw [hdrop] at hc0
                rw [replFuel_count_zero (p0 :: pr) rep fuel post hplen hc0]
                simp
          · rw [countFuel, if_neg hp] at hc
            have hlen : cs.length ≤ fuel := by
              simpa using Nat.le_of_succ_le_succ (by simpa using hl)
            obtain ⟨pre, post, hsplit, hrep⟩ := ih cs hlen hc
            refine ⟨c :: pre, post, by simp [hsplit], ?_⟩
            rw [replFuel, if_neg hp, hrep]
            simp

theorem replaceL_single {pat rep l : List Char} (hpat : ¬ pat = [])
    (h : countOcc pat l = 1) :
    ∃ pre post, l = pre ++ pat ++ post ∧ replaceL pat rep l = pre ++ rep ++ post :=
  replFuel_count_one pat rep hpat l.length l le_rfl h

theorem takeWhile_all {p : Char → Bool} : ∀ (l : List Char),
    (∀ x ∈ l, p x = true) → l.takeWhile p = l := by
  intro l
  induction l with
  | nil => intro _; rfl
  | cons c cs ih =>
      intro h
      rw [List.takeWhile_cons, if_pos (h c (by simp)), ih (fun x hx => h x (by simp [hx]))]

theorem takeWhile_append_stop {p : Char → Bool} : ∀ (l1 : List Char) (c : Char)
    (l2 : List Char), (∀ x ∈ l1, p x = true) → p c = false →
    (l1 ++ c :: l2).takeWhile p = l1 := by
  intro l1
  induction l1 with
  | nil =>
      intro c l2 _ hc
      simp [List.takeWhile_cons, hc]
  | cons a l1 ih =>
      intro c l2 h hc
      rw [List.cons_append, List.takeWhile_cons, if_pos (h a (by simp)),
        ih c l2 (fun x hx => h x (by simp [hx])) hc]

theorem basenameL_append (dirL base : List Char) (hb : ∀ c ∈ base, ¬ c = '/') :
    basenameL (dirL ++ '/' :: base) = base := by
  unfold basenameL
  have h1 : (dirL ++ '/' :: base).reverse = base.reverse ++ '/' :: dirL.reverse := by
    simp
  rw [h1, takeWhile_append_stop base.reverse '/' dirL.reverse ?_ ?_]
  · simp
  · intro x hx
    simp only [decide_eq_true_eq]
    exact hb x (by simpa using hx)
  · simp

theorem basenameL_noslash (base : List Char) (hb : ∀ c ∈ base, ¬ c = '/') :
    basenameL base = base := by
  unfold basenameL
  rw [takeWhile_all base.reverse ?_]
  · simp
  · intro x hx
    simp only [decide_eq_true_eq]
    exact hb x (by simpa using hx)

theorem splitextRootL_stem (stemL extL : List Char) (h0 : ¬ stemL = [])
    (hsd : ∀ c ∈ stemL, ¬ c = '.') (hss : ∀ c ∈ stemL, ¬ c = '/')
    (hed : ∀ c ∈ extL, ¬ c = '.') (hes : ∀ c ∈ extL, ¬ c = '/') :
    splitextRootL (stemL ++ '.' :: extL) = stemL := by
  have hr : (stemL ++ '.' :: extL).reverse = extL.reverse ++ '.' :: stemL.reverse := by
    simp
  have hAfter : (extL.reverse ++ '.' :: stemL.reverse).takeWhile (fun c => c ≠ '.') =
      extL.reverse := by
    apply takeWhile_append_stop
    · intro x hx
      simp only [ne_eq, decide_not, Bool.not_eq_true', decide_eq_false_iff_not]
      exact hed x (by simpa using hx)
    · simp
  unfold splitextRootL
  simp only [hr, hAfter]
  have hcond1 : ¬ (extL.reverse.length = (extL.reverse ++ '.' :: stemL.reverse).length) := by
    simp only [List.length_reverse, List.length_append, List.length_cons]
    omega
  rw [if_neg hcond1]
  have hsplit : extL.reverse ++ '.' :: stemL.reverse =
      (extL.reverse ++ ['.']) ++ stemL.reverse := by
    simp
  have hdrop : List.drop (extL.reverse.length + 1) (extL.reverse ++ '.' :: stemL.reverse) =
      stemL.reverse := by
    rw [hsplit]
    have hl : extL.reverse.length + 1 = (extL.reverse ++ ['.']).length := by simp
    rw [hl, List.drop_left]
  rw [hdrop]
  have hany1 : (extL.reverse.any (fun c => c = '/')) = false := by
    rw [List.any_eq_false]
    intro x hx
    simp only [decide_eq_true_eq]
    exact hes x (by simpa using hx)
  rw [hany1]
  simp only [Bool.false_eq_true, if_false]
  have hTW : stemL.reverse.takeWhile (fun c => c ≠ '/') = stemL.reverse := by
    apply takeWhile_all
    intro x hx
    simp only [ne_eq, decide_not, Bool.not_eq_true', decide_eq_false_iff_not]
    exact hss x (by simpa using hx)
  rw [hTW]
  have hany2 : (stemL.reverse.any (fun c => c ≠ '.')) = true := by
    cases stemL with
    | nil => exact absurd rfl h0
    | cons s0 srest =>
        apply List.any_eq_true.mpr
        refine ⟨s0, by simp, ?_⟩
        simp only [ne_eq, decide_not, Bool.not_eq_true', decide_eq_false_iff_not]
        simpa using hsd s0 (by simp)
  rw [hany2]
  simp

theorem strData_append (a b : String) : (a ++ b).data = a.data ++ b.data := rfl

theorem strExt {a b : String} (h : a.data = b.data) : a = b := by
  cases a
  cases b
  exact congrArg String.mk h

/-- Claim C1: for an Operation with a declared required parameter that is
given no value, invocation fails during binding with
MissingRequiredParameter naming that parameter and the operation nickname,
and no `Dispatch` (transport invocation) is produced.  The hypotheses say
the parameters declared before `p` bind without raising (distinct names,
each one either truthy-supplied with a supported paramType or optional). -/
theorem c1_missing_required_raises (op : Op) (uri : String)
    (kwargs : List (String × Value)) (l1 l2 : List Param) (p : Param)
    (hsplit : op.parameters = l1 ++ p :: l2)
    (hnd : (l1.map Param.name).Nodup)
    (hpass : ∀ q ∈ l1, stepPasses kwargs q = true)
    (hreq : p.required = true)
    (hmiss : lookupV kwargs p.name = Option.none) :
    runCall op uri kwargs = .error (.missingRequired p.name op.nickname) := by
  obtain ⟨st1, hloop1, hpres⟩ :=
    @bindLoop_pass op.nickname l1 (initState uri kwargs) hnd hpass
  have hlk1 : lookupV st1.kwargs p.name = Option.none := by
    have hfalsy : ∀ q ∈ l1, q.name = p.name →
        truthyO (effValue (initState uri kwargs).kwargs q) = false := by
      intro q _ hname
      have hlq : lookupV (initState uri kwargs).kwargs q.name = Option.none := by
        rw [hname]
        exact hmiss
      rw [effValue_of_lookup_none hlq]
      rfl
    rw [hpres p.name hfalsy]
    exact hmiss
  have hstep : bindStep op.nickname st1 p = .error (.missingRequired p.name op.nickname) := by
    apply bindStep_falsy_required ?_ hreq
    rw [effValue_of_lookup_none hlk1]
    rfl
  apply runCall_of_err
  rw [hsplit, bindLoop_append, hloop1]
  show bindLoop op.nickname (p :: l2) st1 = _
  rw [bindLoop_cons_err hstep]

/-- Witness for C1 at a concrete operation and call. -/
theorem c1_witness :
    runCall ⟨"getPet", "GET", [⟨"id", "path", true⟩], false⟩ "http://h/pet/{id}" [] =
      .error (.missingRequired "id" "getPet") :=
  c1_missing_required_raises ⟨"getPet", "GET", [⟨"id", "path", true⟩], false⟩
    "http://h/pet/{id}" [] [] [] ⟨"id", "path", true⟩ rfl (by simp) (by simp) rfl rfl

/-- Claim C2: assuming the declared-parameter loop completes without
raising, the call fails with UnexpectedParameter exactly when some
supplied argument name was never consumed: with leftover names the call
errors with UnexpectedParameter listing those names and the operation
nickname (so no `Dispatch` is produced), with no leftovers a `Dispatch`
is produced, and a supplied name matching no declared parameter is always
left over. -/
theorem c2_unexpected_leftover (op : Op) (uri : String)
    (kwargs : List (String × Value)) (st : BindState)
    (hok : bindLoop op.nickname op.parameters (initState uri kwargs) = .ok st) :
    (¬ st.kwargs = [] →
      runCall op uri kwargs =
        .error (.unexpectedParams (st.kwargs.map Prod.fst) op.nickname)) ∧
    (st.kwargs = [] → ∃ d, runCall op uri kwargs = .ok d) ∧
    (∀ k v, lookupV kwargs k = some v → (∀ q ∈ op.parameters, ¬ q.name = k) →
      lookupV st.kwargs k = some v) := by
  refine ⟨?_, ?_, ?_⟩
  · intro hne
    rw [runCall_of_ok hok]
    have hie : ¬ (st.kwargs.isEmpty = true) := by
      simpa [List.isEmpty_iff] using hne
    rw [if_neg hie]
  · intro he
    rw [runCall_of_ok hok]
    have hie : st.kwargs.isEmpty = true := by
      simp [List.isEmpty_iff, he]
    rw [if_pos hie]
    by_cases hw : op.is_websocket = true
    · rw [if_pos hw]
      exact ⟨_, rfl⟩
    · rw [if_neg hw]
      exact ⟨_, rfl⟩
  · intro k v hkv hnm
    have hpres := (bindLoop_ok_pres op.parameters (initState uri kwargs) st hok).1 k hnm
    rw [hpres.1]
    exact hkv

/-- Witness for C2 at a concrete operation and call. -/
theorem c2_witness :
    runCall ⟨"o", "GET", [], false⟩ "u" [("bogus", Value.int 1)] =
      .error (.unexpectedParams ["bogus"] "o") := by
  have h := c2_unexpected_leftover ⟨"o", "GET", [], false⟩ "u"
    [("bogus", Value.int 1)] (initState "u" [("bogus", Value.int 1)]) rfl
  exact h.1 (by simp [initState])

/-- Claim C3: a declared parameter whose supplied value is falsy (0, empty
string, False, None, or a list whose comma-join is empty) is treated as if
no value had been supplied: a required parameter raises
MissingRequiredParameter even though a value was passed, and an optional
parameter is never consumed, so the call fails with UnexpectedParameter
listing its name; either way no `Dispatch` is produced.  The hypotheses
say every other declared parameter binds without raising and names are
distinct. -/
theorem c3_falsy_treated_missing (op : Op) (uri : String)
    (kwargs : List (String × Value)) (l1 l2 : List Param) (p : Param) (v : Value)
    (hsplit : op.parameters = l1 ++ p :: l2)
    (hnd : (op.parameters.map Param.name).Nodup)
    (hpass : ∀ q, (q ∈ l1 ∨ q ∈ l2) → stepPasses kwargs q = true)
    (hsup : lookupV kwargs p.name = some v)
    (hfalsy : truthyO (effValue kwargs p) = false) :
    (truthy (Value.int 0) = false ∧ truthy (Value.str "") = false ∧
      truthy (Value.bool false) = false ∧ truthy Value.none = false ∧
      (∀ lv : List Value, joinComma lv = "" →
        truthy (Value.str (joinComma lv)) = false)) ∧
    (p.required = true →
      runCall op uri kwargs = .error (.missingRequired p.name op.nickname)) ∧
    (p.required = false →
      ∃ names, runCall op uri kwargs = .error (.unexpectedParams names op.nickname) ∧
        p.name ∈ names) := by
  have hndm : ((l1.map Param.name) ++ (p.name :: l2.map Param.name)).Nodup := by
    rw [hsplit] at hnd
    simpa using hnd
  have hdis := List.disjoint_of_nodup_append hndm
  have hnd2 : (p.name :: l2.map Param.name).Nodup := hndm.of_append_right
  refine ⟨⟨by decide, by decide, by decide, by decide, ?_⟩, ?_, ?_⟩
  · intro lv hj
    simp [truthy, hj]
  · -- required: the loop reaches p with its name still unconsumed and raises
    intro hreq
    obtain ⟨st1, hloop1, hpres⟩ :=
      @bindLoop_pass op.nickname l1 (initState uri kwargs)
        (by
          rw [hsplit] at hnd
          exact (by simpa using hnd : ((l1.map Param.name) ++
            ((p :: l2).map Param.name)).Nodup).of_append_left)
        (fun q hq => hpass q (Or.inl hq))
    have hlk1 : lookupV st1.kwargs p.name = lookupV kwargs p.name := by
      apply hpres
      intro q hq hqname
      exact absurd (List.mem_cons_self p.name _)
        (fun hmem => hdis (List.mem_map.mpr ⟨q, hq, hqname⟩) hmem)
    have heff1 : effValue st1.kwargs p = effValue kwargs p :=
      effValue_congr p (by rw [hlk1])
    have hstep : bindStep op.nickname st1 p =
        .error (.missingRequired p.name op.nickname) := by
      apply bindStep_falsy_required ?_ hreq
      rw [heff1]
      exact hfalsy
    apply runCall_of_err
    rw [hsplit, bindLoop_append, hloop1]
    show bindLoop op.nickname (p :: l2) st1 = _
    rw [bindLoop_cons_err hstep]
  · -- optional: the whole loop passes, p's name is left over
    intro hreq
    have hstep_p : stepPasses kwargs p = true := by
      unfold stepPasses
      rw [hfalsy]
      simp [hreq]
    have hpassall : ∀ q ∈ l1 ++ p :: l2,
        stepPasses (initState uri kwargs).kwargs q = true := by
      intro q hq
      rcases List.mem_append.mp hq with hq1 | hq2
      · exact hpass q (Or.inl hq1)
      · rcases List.mem_cons.mp hq2 with hq3 | hq4
        · subst hq3
          exact hstep_p
        · exact hpass q (Or.inr hq4)
    obtain ⟨st', hloop, hpres⟩ :=
      @bindLoop_pass op.nickname (l1 ++ p :: l2) (initState uri kwargs)
        (by rw [hsplit] at hnd; simpa using hnd) hpassall
    have hlk : lookupV st'.kwargs p.name = some v := by
      rw [hpres p.name ?_]
      · exact hsup
      intro q hq hqname
      rcases List.mem_append.mp hq with hq1 | hq2
      · exact absurd (List.mem_cons_self p.name _)
          (fun hmem => hdis (List.mem_map.mpr ⟨q, hq1, hqname⟩) hmem)
      · rcases List.mem_cons.mp hq2 with hq3 | hq4
        · subst hq3
          exact hfalsy
        · exact absurd (List.mem_map.mpr ⟨q, hq4, hqname⟩)
            (List.nodup_cons.mp hnd2).1
    have hne : ¬ st'.kwargs = [] := by
      intro hnil
      rw [hnil] at hlk
      exact Option.noConfusion hlk
    have hloop' : bindLoop op.nickname op.parameters (initState uri kwargs) = .ok st' := by
      rw [hsplit]
      exact hloop
    refine ⟨st'.kwargs.map Prod.fst, ?_, lookupV_mem hlk⟩
    rw [runCall_of_ok hloop']
    have hie : ¬ (st'.kwargs.isEmpty = true) := by
      simpa [List.isEmpty_iff] using hne
    rw [if_neg hie]

/-- Witness for C3 at a concrete operation and call: an optional query
parameter supplied with the empty string. -/
theorem c3_witness :
    ∃ names, runCall ⟨"o", "GET", [⟨"status", "query", false⟩], false⟩ "u"
        [("status", Value.str "")] = .error (.unexpectedParams names "o") ∧
      "status" ∈ names := by
  have h := c3_falsy_treated_missing ⟨"o", "GET", [⟨"status", "query", false⟩], false⟩
    "u" [("status", Value.str "")] [] [] ⟨"status", "query", false⟩ (Value.str "")
    rfl (by simp) (by simp) rfl (by decide)
  exact h.2.2 rfl

/-- Claim C4: binding a path parameter whose placeholder occurs exactly
once in the URI template replaces that placeholder by the string form of
the (collapsed) value exactly once: the dispatched URI is the template
with the one occurrence replaced, the surrounding text — and so every
other placeholder — left verbatim. -/
theorem c4_path_substitution (nick meth : String) (p : Param) (v w : Value)
    (uri : String)
    (hpt : p.paramType = "path")
    (heff : effValue [(p.name, v)] p = some w)
    (htr : truthy w = true)
    (hocc : countOccS uri ("\x7b" ++ p.name ++ "\x7d") = 1) :
    ∃ pre post : String,
      uri = pre ++ ("\x7b" ++ p.name ++ "\x7d") ++ post ∧
      runCall ⟨nick, meth, [p], false⟩ uri [(p.name, v)] =
        .ok (.request meth (pre ++ pyStr w ++ post) [] Option.none Option.none) := by
  have heff' : effValue (initState uri [(p.name, v)]).kwargs p = some w := heff
  have hstep : bindStep nick (initState uri [(p.name, v)]) p = .ok
      { uri := pyReplace uri ("\x7b" ++ p.name ++ "\x7d") (pyStr w)
        params := []
        data := Option.none
        headers := Option.none
        kwargs := [] } := by
    rw [bindStep_eq_some heff', if_pos htr, if_pos hpt]
    simp [initState, removeKey]
  have hloop : bindLoop nick [p] (initState uri [(p.name, v)]) = .ok
      { uri := pyReplace uri ("\x7b" ++ p.name ++ "\x7d") (pyStr w)
        params := []
        data := Option.none
        headers := Option.none
        kwargs := [] } := by
    rw [bindLoop_cons_ok hstep]
    rfl
  have hne : ¬ ("\x7b" ++ p.name ++ "\x7d").data = [] := by
    rw [strData_append, strData_append]
    simp
  obtain ⟨preL, postL, hsp, hrep⟩ :=
    @replaceL_single _ (pyStr w).data _ hne hocc
  refine ⟨⟨preL⟩, ⟨postL⟩, ?_, ?_⟩
  · apply strExt
    rw [strData_append, strData_append]
    simpa using hsp
  · have hrun := @runCall_of_ok ⟨nick, meth, [p], false⟩ _ _ _ hloop
    rw [hrun]
    have huri : pyReplace uri ("\x7b" ++ p.name ++ "\x7d") (pyStr w) =
        (⟨preL⟩ : String) ++ pyStr w ++ ⟨postL⟩ := by
      apply strExt
      rw [strData_append, strData_append]
      simpa [pyReplace] using hrep
    simp [huri]

/-- Witness for C4 at a concrete operation, template and call. -/
theorem c4_witness :
    ∃ pre post : String,
      "http://h/pet/{id}/x/{o}" = pre ++ ("\x7b" ++ "id" ++ "\x7d") ++ post ∧
      runCall ⟨"getPet", "GET", [⟨"id", "path", true⟩], false⟩
          "http://h/pet/{id}/x/{o}" [("id", Value.int 42)] =
        .ok (.request "GET" (pre ++ pyStr (Value.int 42) ++ post) []
          Option.none Option.none) :=
  c4_path_substitution "getPet" "GET" ⟨"id", "path", true⟩ (Value.int 42)
    (Value.int 42) "http://h/pet/{id}/x/{o}" rfl rfl (by decide) (by decide)

/-- Claim C5: a list value supplied for a path or query parameter is
collapsed, before substitution or query insertion, to the single
comma-joined string of its elements' string forms; end to end, a query
parameter given a list dispatches with that joined string as the
parameter's value. -/
theorem c5_list_comma_join (p : Param) (kwargs : List (String × Value))
    (l : List Value)
    (hpt : p.paramType = "path" ∨ p.paramType = "query")
    (hlk : lookupV kwargs p.name = some (Value.list l))
    (nick meth uri name : String) (req : Bool) (lv : List Value)
    (htr : truthy (Value.str (joinComma lv)) = true) :
    effValue kwargs p = some (Value.str (joinComma l)) ∧
    runCall ⟨nick, meth, [⟨name, "query", req⟩], false⟩ uri
        [(name, Value.list lv)] =
      .ok (.request meth uri [(name, Value.str (joinComma lv))]
        Option.none Option.none) := by
  constructor
  · unfold effValue
    rw [hlk]
    rcases hpt with h1 | h1 <;> simp [h1]
  · have heff : effValue [(name, Value.list lv)]
        (⟨name, "query", req⟩ : Param) = some (Value.str (joinComma lv)) := by
      unfold effValue
      simp [lookupV]
    have hstep : bindStep nick (initState uri [(name, Value.list lv)])
        (⟨name, "query", req⟩ : Param) = .ok
        { uri := uri
          params := [(name, Value.str (joinComma lv))]
          data := Option.none
          headers := Option.none
          kwargs := [] } := by
      rw [bindStep_eq_some heff, if_pos htr]
      simp [initState, removeKey, setKey]
    have hloop : bindLoop nick [(⟨name, "query", req⟩ : Param)]
        (initState uri [(name, Value.list lv)]) = .ok
        { uri := uri
          params := [(name, Value.str (joinComma lv))]
          data := Option.none
          headers := Option.none
          kwargs := [] } := by
      rw [bindLoop_cons_ok hstep]
      rfl
    have hrun := @runCall_of_ok ⟨nick, meth, [⟨name, "query", req⟩], false⟩ _ _ _ hloop
    rw [hrun]
    simp

/-- Witness for C5: the list of strings a, b joins to the literal string
with a comma between them. -/
theorem c5_witness :
    effValue [("s", Value.list [Value.str "a", Value.str "b"])]
        ⟨"s", "query", false⟩ = some (Value.str "a,b") ∧
    runCall ⟨"o", "GET", [⟨"s", "query", false⟩], false⟩ "u"
        [("s", Value.list [Value.str "a", Value.str "b"])] =
      .ok (.request "GET" "u" [("s", Value.str "a,b")]
        Option.none Option.none) :=
  c5_list_comma_join ⟨"s", "query", false⟩
    [("s", Value.list [Value.str "a", Value.str "b"])]
    [Value.str "a", Value.str "b"] (Or.inr rfl) rfl
    "o" "GET" "u" "s" false [Value.str "a", Value.str "b"] (by decide)

/-- Claim C6: when the one declared body parameter is bound (other
declared parameters have other names and are not body parameters), the
supplied value is the request body payload, the outgoing headers are
exactly the content-type application/json dict, and the body parameter's
name is absent from the outgoing query parameter set. -/
theorem c6_body_binding (op : Op) (uri : String) (kwargs : List (String × Value))
    (l1 l2 : List Param) (bp : Param) (v : Value) (st : BindState)
    (hsplit : op.parameters = l1 ++ bp :: l2)
    (hbt : bp.paramType = "body")
    (hnb : ∀ q, (q ∈ l1 ∨ q ∈ l2) → ¬ q.paramType = "body")
    (hnn : ∀ q, (q ∈ l1 ∨ q ∈ l2) → ¬ q.name = bp.name)
    (hlk : lookupV kwargs bp.name = some v)
    (htr : truthy v = true)
    (hok : bindLoop op.nickname op.parameters (initState uri kwargs) = .ok st)
    (hleft : st.kwargs = [])
    (hws : op.is_websocket = false) :
    st.data = some v ∧ st.headers = some ctJson ∧
    lookupV st.params bp.name = Option.none ∧
    runCall op uri kwargs =
      .ok (.request op.method st.uri st.params (some v) (some ctJson)) := by
  have hok0 := hok
  rw [hsplit, bindLoop_append] at hok
  cases h1 : bindLoop op.nickname l1 (initState uri kwargs) with
  | error e =>
      rw [h1] at hok
      exact Except.noConfusion (hok : (Except.error e : Except CallError BindState) = .ok st)
  | ok st1 =>
      rw [h1] at hok
      have hok2 : bindLoop op.nickname (bp :: l2) st1 = .ok st := hok
      have hpres1 := bindLoop_ok_pres l1 (initState uri kwargs) st1 h1
      have hlk1 : lookupV st1.kwargs bp.name = some v := by
        rw [(hpres1.1 bp.name (fun q hq => hnn q (Or.inl hq))).1]
        exact hlk
      have hpar1 : lookupV st1.params bp.name = Option.none := by
        rw [(hpres1.1 bp.name (fun q hq => hnn q (Or.inl hq))).2]
        rfl
      have heff : effValue st1.kwargs bp = some v := effValue_body hbt hlk1
      have hstep : bindStep op.nickname st1 bp = .ok
          { st1 with
            data := some v
            headers := some ctJson
            kwargs := removeKey st1.kwargs bp.name } := by
        rw [bindStep_eq_some heff, if_pos htr,
          if_neg (by simp [hbt]), if_neg (by simp [hbt]), if_pos hbt]
      rw [bindLoop_cons_ok hstep] at hok2
      have hpres2 := bindLoop_ok_pres l2 _ st hok2
      have hdh := hpres2.2 (fun q hq => hnb q (Or.inr hq))
      have hdata : st.data = some v := hdh.1
      have hheaders : st.headers = some ctJson := hdh.2
      have hparf : lookupV st.params bp.name = Option.none := by
        rw [(hpres2.1 bp.name (fun q hq => hnn q (Or.inr hq))).2]
        exact hpar1
      refine ⟨hdata, hheaders, hparf, ?_⟩
      rw [runCall_of_ok hok0, if_pos (by simp [hleft]), if_neg (by simp [hws]),
        hdata, hheaders]

/-- Witness for C6 at a concrete operation and call. -/
theorem c6_witness :
    runCall ⟨"o", "GET", [⟨"b", "body", false⟩], false⟩ "u" [("b", Value.str "x")] =
      .ok (.request "GET" "u" [] (some (Value.str "x")) (some ctJson)) := by
  have h := c6_body_binding ⟨"o", "GET", [⟨"b", "body", false⟩], false⟩ "u"
    [("b", Value.str "x")] [] [] ⟨"b", "body", false⟩ (Value.str "x")
    { uri := "u"
      params := []
      data := some (Value.str "x")
      headers := some ctJson
      kwargs := [] }
    rfl rfl (by simp) (by simp) rfl (by decide) rfl rfl rfl
  exact h.2.2.2

/-- Claim C7: with binding complete and no leftovers, a websocket
operation dispatches through the streaming entry point with the scheme
rewrite applied to the bound URI and the accumulated query parameters,
while a non-websocket operation dispatches through the request entry
point with the bound URI unrewritten; the rewrite itself turns a leading
http into ws and changes nothing else, and leaves a URI without a leading
http untouched. -/
theorem c7_dispatch_scheme (op : Op) (uri : String)
    (kwargs : List (String × Value)) (st : BindState)
    (hok : bindLoop op.nickname op.parameters (initState uri kwargs) = .ok st)
    (hleft : st.kwargs = []) :
    (op.is_websocket = true →
      runCall op uri kwargs = .ok (.wsConnect (wsFix st.uri) st.params)) ∧
    (op.is_websocket = false →
      runCall op uri kwargs =
        .ok (.request op.method st.uri st.params st.data st.headers)) ∧
    (∀ rest : String, wsFix ("http" ++ rest) = "ws" ++ rest) ∧
    (∀ u : String, ("http".data).isPrefixOf u.data = false → wsFix u = u) := by
  refine ⟨?_, ?_, ?_, ?_⟩
  · intro hw
    rw [runCall_of_ok hok, if_pos (by simp [hleft]), if_pos hw]
  · intro hw
    rw [runCall_of_ok hok, if_pos (by simp [hleft]), if_neg (by simp [hw])]
  · intro rest
    unfold wsFix
    have hp : ("http".data).isPrefixOf ("http" ++ rest).data = true := by
      rw [strData_append]
      exact List.isPrefixOf_iff_prefix.mpr ⟨rest.data, rfl⟩
    rw [if_pos hp]
    apply strExt
    show "ws".data ++ List.drop 4 ("http" ++ rest).data = ("ws" ++ rest).data
    rw [strData_append, strData_append]
    have hd : List.drop 4 ("http".data ++ rest.data) = rest.data :=
      List.drop_left "http".data rest.data
    rw [hd]
  · intro u hpf
    unfold wsFix
    rw [hpf]
    simp

/-- Witness for C7 at a concrete websocket operation. -/
theorem c7_witness :
    runCall ⟨"o", "GET", [], true⟩ "http://h" [] = .ok (.wsConnect "ws://h" []) := by
  have h := c7_dispatch_scheme ⟨"o", "GET", [], true⟩ "http://h" []
    (initState "http://h" []) rfl rfl
  exact (h.1 rfl).trans rfl

/-- Claim C8 settlement: at an operation with a declared parameter of
paramType header and a truthy supplied value, binding fails fatally and
no `Dispatch` is produced — but the exception the source raises is the
AttributeError from evaluating `param.paramType` on a dict, not the
intended AssertionError (the raise statement never finishes formatting
its message). -/
theorem c8_unsupported_paramtype_attribute_error :
    runCall ⟨"op1", "GET", [⟨"h1", "header", false⟩], false⟩ "u"
        [("h1", Value.str "v")] = .error .attrErrorParamType := rfl

/-- Claim C9: every operation built by a Resource gets as URI template the
effective base path — the declaration's own basePath when it is not the
root sentinel, the client-level base path otherwise — concatenated with
its API entry's path fragment. -/
theorem c9_operation_uri (clientBase : String) (decl : ApiDecl) (nick : String)
    (b : BuiltOp)
    (hmem : (nick, b) ∈ buildOperations clientBase decl) :
    ∃ api, api ∈ decl.apis ∧ b.oper ∈ api.operations ∧
      b.uri = specEffectiveBasePath clientBase decl.basePath ++ api.path := by
  unfold buildOperations at hmem
  rw [List.mem_flatMap] at hmem
  obtain ⟨api, hapi, hmem2⟩ := hmem
  rw [List.mem_map] at hmem2
  obtain ⟨oper, hoper, heq⟩ := hmem2
  have hb : buildOperation clientBase decl api oper = b := congrArg Prod.snd heq
  refine ⟨api, hapi, ?_, ?_⟩
  · rw [← hb]
    exact hoper
  · rw [← hb]
    unfold buildOperation specEffectiveBasePath rootSentinel
    rfl

/-- Witness for C9 at a concrete declaration using the root sentinel. -/
theorem c9_witness :
    ∃ api, api ∈
        (⟨"/", [⟨"/pet", [⟨"getPet", "GET", [], false⟩]⟩]⟩ : ApiDecl).apis ∧
      (⟨"http://host/pet", ⟨"getPet", "GET", [], false⟩⟩ : BuiltOp).oper ∈
        api.operations ∧
      (⟨"http://host/pet", ⟨"getPet", "GET", [], false⟩⟩ : BuiltOp).uri =
        specEffectiveBasePath "http://host"
          (⟨"/", [⟨"/pet", [⟨"getPet", "GET", [], false⟩]⟩]⟩ : ApiDecl).basePath
          ++ api.path :=
  c9_operation_uri "http://host"
    ⟨"/", [⟨"/pet", [⟨"getPet", "GET", [], false⟩]⟩]⟩
    "getPet" ⟨"http://host/pet", ⟨"getPet", "GET", [], false⟩⟩
    (by simp [buildOperations, buildOperation])

/-- Claim C10: the enrichment pass writes onto the listing entry, as its
name, the file stem of the entry's path — directory stripped, extension
stripped — as a pure function of the path string with no error
conditions; in particular a path of a slash-free dotted filename under
any directory yields the bare stem, and the path /pet.json yields pet. -/
theorem c10_resource_name (dir stem ext : String) (e : ListingApi)
    (h0 : ¬ stem.data = [])
    (hs : ∀ c ∈ stem.data, ¬ c = '.' ∧ ¬ c = '/')
    (he : ∀ c ∈ ext.data, ¬ c = '.' ∧ ¬ c = '/') :
    (processResourceListingApi e).name = some (resourceName e.path) ∧
    (processResourceListingApi e).path = e.path ∧
    resourceName (dir ++ "/" ++ stem ++ "." ++ ext) = stem ∧
    resourceName "/pet.json" = "pet" := by
  refine ⟨rfl, rfl, ?_, by decide⟩
  unfold resourceName
  apply strExt
  have hdata : (dir ++ "/" ++ stem ++ "." ++ ext).data =
      dir.data ++ '/' :: (stem.data ++ '.' :: ext.data) := by
    rw [strData_append, strData_append, strData_append, strData_append]
    simp
  rw [hdata, basenameL_append dir.data (stem.data ++ '.' :: ext.data) ?_,
    splitextRootL_stem stem.data ext.data h0
      (fun c hc => (hs c hc).1) (fun c hc => (hs c hc).2)
      (fun c hc => (he c hc).1) (fun c hc => (he c hc).2)]
  intro c hc
  rcases List.mem_append.mp hc with hc1 | hc2
  · exact (hs c hc1).2
  · rcases List.mem_cons.mp hc2 with hc3 | hc4
    · rw [hc3]
      decide
    · exact (he c hc4).2

/-- Witness for C10: the path /pet.json (directory slash, stem pet,
extension json) yields the resource name pet and is written onto the
entry. -/
theorem c10_witness :
    (processResourceListingApi ⟨"/pet.json", Option.none⟩).name =
      some (resourceName "/pet.json") ∧
    (processResourceListingApi ⟨"/pet.json", Option.none⟩).path = "/pet.json" ∧
    resourceName ("" ++ "/" ++ "pet" ++ "." ++ "json") = "pet" ∧
    resourceName "/pet.json" = "pet" :=
  c10_resource_name "" "pet" "json" ⟨"/pet.json", Option.none⟩
    (by decide) (by decide) (by decide)
